import Mathlib

set_option maxRecDepth 8000

/-!
Shallow embedding of the comic-catalog REST service (`src/index.ts`).

The store is the global `comics : Comic[]` array, embedded as a `List Comic`.
Every route handler is embedded as a pure function from the store (plus the
request data) to the response, returning the new store where the handler
mutates it.  Machine numbers (`id`, `year`) are embedded as `Int`; request
fields that may be absent (`title?`, `author?`, ...) as `Option`.
JavaScript truthiness on those fields is modelled explicitly (`falsyStr`,
`falsyYear`, `jsOr`), and `parseInt` / `Array.prototype.slice` /
`Math.ceil(a / b)` are modelled by `parseIntJS` / `jsSlice` / `ceilDiv`
(the radix-16 `0x` prefix of `parseInt`, never exercised here, is left out).
-/

namespace Catalog

/-- The `Comic` interface of the source: one catalog record. -/
structure Comic where
  id : Int
  title : String
  author : String
  year : Int
  publisher : String
  genre : String
  description : String
deriving Repr, DecidableEq

/-- The `ComicInput` interface: a request payload with every field optional.
`year` reaches the handlers as a number (its string form is coerced by
`parseInt` in the source and is not exercised by any claim). -/
structure ComicInput where
  title : Option String
  author : Option String
  year : Option Int
  publisher : Option String
  genre : Option String
  description : Option String
deriving Repr, DecidableEq

/-- The payload `{}` with no field provided. -/
def emptyInput : ComicInput := ⟨none, none, none, none, none, none⟩

/-- The seeded record with id 1. -/
def seed1 : Comic :=
  { id := 1
    title := "Batman: The Dark Knight Returns"
    author := "Frank Miller"
    year := 1986
    publisher := "DC Comics"
    genre := "Superhero"
    description := "Set in a dystopian future, an aged Bruce Wayne dons the Batman costume once again." }

/-- The seeded record with id 2. -/
def seed2 : Comic :=
  { id := 2
    title := "Watchmen"
    author := "Alan Moore"
    year := 1986
    publisher := "DC Comics"
    genre := "Superhero"
    description := "Deconstruction of the superhero concept, features complex characters and alternating storylines." }

/-- The seeded record with id 3. -/
def seed3 : Comic :=
  { id := 3
    title := "Maus"
    author := "Art Spiegelman"
    year := 1991
    publisher := "Pantheon Books"
    genre := "Biography"
    description := "A survivor's tale, portraying Jews as mice and Nazis as cats during the Holocaust." }

/-- The in-memory database the server starts with (`let comics = [...]`). -/
def seedComics : List Comic := [seed1, seed2, seed3]

/-- `getNextId`: `comics.reduce((max, comic) => (comic.id > max ? comic.id : max), 0)`
then `maxId + 1`. -/
def getNextId (comics : List Comic) : Int :=
  comics.foldl (fun mx c => if c.id > mx then c.id else mx) 0 + 1

/-- The identifiers currently in the store, in store order. -/
def idsOf (comics : List Comic) : List Int := comics.map Comic.id

/-- The spec's "maximum existing identifier, or 0 if the store is empty". -/
def maxIdSpec (comics : List Comic) : Int := (idsOf comics).foldr max 0

/-- JavaScript truthiness test on an optional string field: `undefined` and
`""` are falsy. -/
def falsyStr : Option String → Bool
  | none => true
  | some s => s = ""

/-- JavaScript truthiness test on an optional numeric field: `undefined` and
`0` are falsy. -/
def falsyYear : Option Int → Bool
  | none => true
  | some y => y = 0

/-- `x || d` for an optional string field `x`. -/
def jsOr : Option String → String → String
  | none, d => d
  | some s, d => if s = "" then d else s

/-- The `!title || !author || !year` required-field check shared by create
and bulk create. -/
def invalidInput (inp : ComicInput) : Bool :=
  falsyStr inp.title || falsyStr inp.author || falsyYear inp.year

/-- The validation message of the create endpoints. -/
def requiredMsg : String := "Title, author, and year are required fields"

/-- The `newComic` object literal built by `POST /comics` and
`POST /comics/bulk`: next id plus the `|| default` field substitutions. -/
def mkNewComic (comics : List Comic) (inp : ComicInput) : Comic :=
  { id := getNextId comics
    title := inp.title.getD ""
    author := inp.author.getD ""
    year := inp.year.getD 0
    publisher := jsOr inp.publisher "Unknown"
    genre := jsOr inp.genre "Unspecified"
    description := jsOr inp.description "" }

/-- `POST /comics`: `none` is the 400 validation response; on success the
new store (`comics.push(newComic)`) and the created record. -/
def postComic (comics : List Comic) (inp : ComicInput) : Option (List Comic × Comic) :=
  if invalidInput inp then none
  else
    let c := mkNewComic comics inp
    some (comics ++ [c], c)

/-- The `updatedComic` object literal of `PUT /comics/:id`: every provided
field overwrites, every omitted (`undefined`) field keeps its prior value;
`id` is taken from the spread of the existing record. -/
def applyUpdate (old : Comic) (inp : ComicInput) : Comic :=
  { old with
    title := inp.title.getD old.title
    author := inp.author.getD old.author
    year := inp.year.getD old.year
    publisher := inp.publisher.getD old.publisher
    genre := inp.genre.getD old.genre
    description := inp.description.getD old.description }

/-- `PUT /comics/:id`: `findIndex` on the id, 404 (`none`) when absent,
otherwise replace in place and return the updated record. -/
def updateComic : List Comic → Int → ComicInput → Option (List Comic × Comic)
  | [], _, _ => none
  | c :: rest, i, inp =>
    if c.id = i then
      let u := applyUpdate c inp
      some (u :: rest, u)
    else
      (updateComic rest i inp).map (fun p => (c :: p.1, p.2))

/-- `DELETE /comics/:id`: `findIndex` on the id, 404 (`none`) when absent,
otherwise `splice` the record out and return its snapshot. -/
def deleteComic : List Comic → Int → Option (List Comic × Comic)
  | [], _ => none
  | c :: rest, i =>
    if c.id = i then some (rest, c)
    else (deleteComic rest i).map (fun p => (c :: p.1, p.2))

/-- The `forEach` loop of `POST /comics/bulk`: threads the store through the
payloads, collecting added records and failed payloads with their reason. -/
def bulkCreateGo (comics : List Comic) :
    List ComicInput → List Comic × List Comic × List (ComicInput × String)
  | [] => (comics, [], [])
  | inp :: rest =>
    if invalidInput inp then
      let r := bulkCreateGo comics rest
      (r.1, r.2.1, (inp, requiredMsg) :: r.2.2)
    else
      let c := mkNewComic comics inp
      let r := bulkCreateGo (comics ++ [c]) rest
      (r.1, c :: r.2.1, r.2.2)

/-- `POST /comics/bulk`: `none` is the 400 response for an empty payload
sequence (the non-array JSON case is outside this typed embedding);
otherwise the final store, the added records and the failed payloads. -/
def bulkCreate (comics : List Comic) (inputs : List ComicInput) :
    Option (List Comic × List Comic × List (ComicInput × String)) :=
  if inputs.isEmpty then none else some (bulkCreateGo comics inputs)

/-- The `forEach` loop of `DELETE /comics/bulk`: each id is looked up in the
store as already mutated by the earlier ids. -/
def bulkDeleteGo (comics : List Comic) :
    List Int → List Comic × List Comic × List Int
  | [] => (comics, [], [])
  | i :: rest =>
    match deleteComic comics i with
    | none =>
        let r := bulkDeleteGo comics rest
        (r.1, r.2.1, i :: r.2.2)
    | some (s1, c) =>
        let r := bulkDeleteGo s1 rest
        (r.1, c :: r.2.1, r.2.2)

/-- `DELETE /comics/bulk`: `none` is the 400 response for an empty ids
sequence (the non-array JSON case is outside this typed embedding);
otherwise the final store, the deleted records and the not-found ids. -/
def bulkDelete (comics : List Comic) (ids : List Int) :
    Option (List Comic × List Comic × List Int) :=
  if ids.isEmpty then none else some (bulkDeleteGo comics ids)

/-- `GET /comics/:id`: `comics.find` on the parsed id. -/
def getComicById (comics : List Comic) (i : Int) : Option Comic :=
  comics.find? (fun c => c.id = i)

/-- `s.toLowerCase()`: `Char.toLower` on each character (`String.toLower`,
written so that it evaluates by kernel reduction). -/
def jsToLower (s : String) : String := String.mk (s.data.map Char.toLower)

/-- `hay.includes(needle)` on JavaScript strings. -/
def strIncludes (hay needle : String) : Bool :=
  decide (needle.toList <:+: hay.toList)

/-- The search predicate of `GET /search/comics/:keyword`: the lowercased
keyword is a substring of one of the five lowercased text fields. -/
def matchesKeyword (kw : String) (c : Comic) : Bool :=
  let k := jsToLower kw
  strIncludes (jsToLower c.title) k ||
  strIncludes (jsToLower c.author) k ||
  strIncludes (jsToLower c.publisher) k ||
  strIncludes (jsToLower c.genre) k ||
  strIncludes (jsToLower c.description) k

/-- `GET /search/comics/:keyword`: `none` is the 404 response when the
filter retains nothing; otherwise the matches and their count (the count
appears in the response message `Found N comics ...`). -/
def searchComics (comics : List Comic) (kw : String) : Option (List Comic × Nat) :=
  let results := comics.filter (matchesKeyword kw)
  if results.isEmpty then none else some (results, results.length)

/-- `parseInt(s)` at radix 10: skip leading whitespace, an optional sign,
then the longest digit run; `none` is `NaN`.  (The `0x` hex-prefix corner of
`parseInt` is not modelled; no claim exercises it.) -/
def parseIntJS (s : String) : Option Int :=
  let cs := s.toList.dropWhile (fun c => c = ' ' ∨ c = '\t' ∨ c = '\n' ∨ c = '\r')
  let core : List Char → Option Nat := fun l =>
    let ds := l.takeWhile Char.isDigit
    if ds.isEmpty then none
    else some (ds.foldl (fun a c => a * 10 + (c.toNat - 48)) 0)
  match cs with
  | '-' :: rest => (core rest).map (fun n => -(n : Int))
  | '+' :: rest => (core rest).map (fun n => (n : Int))
  | _ => (core cs).map (fun n => (n : Int))

/-- `parseInt(x) || d`: `NaN` (`none`) and `0` both fall back to the
default. -/
def jsOrInt : Option Int → Int → Int
  | none, d => d
  | some v, d => if v = 0 then d else v

/-- `Array.prototype.slice(s, e)` with integer arguments: negative indexes
count from the end, both ends clamp to `[0, length]`. -/
def jsSlice (l : List Comic) (s e : Int) : List Comic :=
  let n : Int := l.length
  let s' := if s < 0 then max (n + s) 0 else min s n
  let e' := if e < 0 then max (n + e) 0 else min e n
  (l.take e'.toNat).drop s'.toNat

/-- `Math.ceil(a / b)` for integers `a`, `b` with `b ≠ 0`. -/
def ceilDiv (a b : Int) : Int := -((-a).fdiv b)

/-- The query string of `GET /comics`; every parameter is optional text. -/
structure ListQuery where
  author : Option String := none
  genre : Option String := none
  publisher : Option String := none
  year : Option String := none
  page : Option String := none
  limit : Option String := none
deriving Repr, DecidableEq

/-- The body of the 200 response of `GET /comics`. -/
structure ListResult where
  data : List Comic
  totalItems : Nat
  totalPages : Int
  currentPage : Int
deriving Repr, DecidableEq

/-- The author filter predicate of `GET /comics`:
`comic.author.toLowerCase().includes(author.toLowerCase())`. -/
def authorTest (a : String) (c : Comic) : Bool :=
  strIncludes (jsToLower c.author) (jsToLower a)

/-- The genre filter predicate of `GET /comics`. -/
def genreTest (g : String) (c : Comic) : Bool :=
  strIncludes (jsToLower c.genre) (jsToLower g)

/-- The publisher filter predicate of `GET /comics`. -/
def publisherTest (p : String) (c : Comic) : Bool :=
  strIncludes (jsToLower c.publisher) (jsToLower p)

/-- The year filter predicate of `GET /comics`:
`comic.year === parseInt(year)` (`NaN` matches nothing). -/
def yearTest (y : String) (c : Comic) : Bool :=
  match parseIntJS y with
  | some v => c.year = v
  | none => false

/-- One `if (param && typeof param === "string") result =
result.filter(test(param))` step of `GET /comics`: the filter runs only
for a present, non-empty parameter. -/
def applyOptFilter (o : Option String) (test : String → Comic → Bool)
    (l : List Comic) : List Comic :=
  match o with
  | some s => if s = "" then l else l.filter (test s)
  | none => l

/-- The filter cascade of `GET /comics`, in source order: author, genre,
publisher, year. -/
def filterByQuery (comics : List Comic) (q : ListQuery) : List Comic :=
  applyOptFilter q.year yearTest
    (applyOptFilter q.publisher publisherTest
      (applyOptFilter q.genre genreTest
        (applyOptFilter q.author authorTest comics)))

/-- `GET /comics`: filter cascade, then pagination with the
`parseInt(...) || default` coercions and `slice(startIndex, endIndex)`. -/
def listComics (comics : List Comic) (q : ListQuery) : ListResult :=
  let result := filterByQuery comics q
  let page := jsOrInt (q.page.bind parseIntJS) 1
  let lim := jsOrInt (q.limit.bind parseIntJS) 10
  let startIndex := (page - 1) * lim
  let endIndex := page * lim
  { data := jsSlice result startIndex endIndex
    totalItems := result.length
    totalPages := ceilDiv result.length lim
    currentPage := page }

/-- `[...new Set(comics.map(f))]`: first occurrences, in store order. -/
def uniqueList (f : Comic → String) (comics : List Comic) : List String :=
  comics.foldl (fun acc c => if f c ∈ acc then acc else acc ++ [f c]) []

/-- One step of the `counts[key] = (counts[key] || 0) + 1` accumulation on
a JavaScript object, embedded as an insertion-ordered association list. -/
def bump : List (String × Nat) → String → List (String × Nat)
  | [], k => [(k, 1)]
  | (k', n) :: rest, k =>
    if k' = k then (k', n + 1) :: rest else (k', n) :: bump rest k

/-- The `forEach` accumulation of `publisherCounts` / `authorCounts` /
`genreCounts`. -/
def countsMap (f : Comic → String) (comics : List Comic) : List (String × Nat) :=
  comics.foldl (fun m c => bump m (f c)) []

/-- Reading one key of the embedded counts object. -/
def lookupCount (m : List (String × Nat)) (k : String) : Option Nat :=
  (m.find? (fun kv => kv.1 = k)).map Prod.snd

/-- `comics.reduce((oldest, comic) => (comic.year < oldest.year ? comic :
oldest), comics[0])`; `none` only for the empty store, where the source
yields `undefined`. -/
def reduceOldest (comics : List Comic) : Option Comic :=
  match comics with
  | [] => none
  | c0 :: _ =>
      some (comics.foldl (fun oldest c => if c.year < oldest.year then c else oldest) c0)

/-- `comics.reduce((newest, comic) => (comic.year > newest.year ? comic :
newest), comics[0])`. -/
def reduceNewest (comics : List Comic) : Option Comic :=
  match comics with
  | [] => none
  | c0 :: _ =>
      some (comics.foldl (fun newest c => if c.year > newest.year then c else newest) c0)

/-- The body of the 200 response of `GET /stats/comics`. -/
structure StatsResult where
  totalComics : Nat
  uniquePublishers : Nat
  uniqueAuthors : Nat
  uniqueGenres : Nat
  publisherCounts : List (String × Nat)
  authorCounts : List (String × Nat)
  genreCounts : List (String × Nat)
  oldestComic : Option Comic
  newestComic : Option Comic
deriving Repr, DecidableEq

/-- `GET /stats/comics`. -/
def statsComics (comics : List Comic) : StatsResult :=
  { totalComics := comics.length
    uniquePublishers := (uniqueList Comic.publisher comics).length
    uniqueAuthors := (uniqueList Comic.author comics).length
    uniqueGenres := (uniqueList Comic.genre comics).length
    publisherCounts := countsMap Comic.publisher comics
    authorCounts := countsMap Comic.author comics
    genreCounts := countsMap Comic.genre comics
    oldestComic := reduceOldest comics
    newestComic := reduceNewest comics }

/-- The `GET /comics` handler with its store threaded through: the route
body never assigns to `comics`, so the outgoing store is the incoming one. -/
def getComicsHandler (comics : List Comic) (q : ListQuery) : List Comic × ListResult :=
  (comics, listComics comics q)

/-- The `GET /comics/:id` handler with its store threaded through. -/
def getComicByIdHandler (comics : List Comic) (i : Int) : List Comic × Option Comic :=
  (comics, getComicById comics i)

/-- The `GET /stats/comics` handler with its store threaded through. -/
def statsHandler (comics : List Comic) : List Comic × StatsResult :=
  (comics, statsComics comics)

/-- The `GET /search/comics/:keyword` handler with its store threaded
through. -/
def searchHandler (comics : List Comic) (kw : String) :
    List Comic × Option (List Comic × Nat) :=
  (comics, searchComics comics kw)

/-- The spec-worded window `[(page-1)*limit, page*limit)` of a sequence:
the elements whose (0-based) position lies in `[a, b)`. -/
def windowSpec (l : List Comic) (a b : Int) : List Comic :=
  (l.take b.toNat).drop a.toNat

/-- Whether a record passes one optional filter: an absent or empty
parameter constrains nothing. -/
def passOpt (o : Option String) (test : String → Comic → Bool) (c : Comic) : Bool :=
  match o with
  | some s => if s = "" then true else test s c
  | none => true

/-- The spec-worded single-pass AND of the four list filters, used to state
the refinement of the source's filter cascade. -/
def matchesAll (q : ListQuery) (c : Comic) : Bool :=
  passOpt q.author authorTest c &&
  passOpt q.genre genreTest c &&
  passOpt q.publisher publisherTest c &&
  passOpt q.year yearTest c

/-- A valid create payload (title, author and year present) used in
concrete checks. -/
def wInp : ComicInput := ⟨some "T", some "A", some 2000, none, none, none⟩

/-- The invalid bulk payload `{author: "C"}` of the spec's bulk-create
example: title and year are missing. -/
def badInp : ComicInput := ⟨none, some "C", none, none, none, none⟩

/-- A partial update payload carrying only a title. -/
def wUpd : ComicInput := ⟨some "W", none, none, none, none, none⟩

/-- The seeded record with id 2 after the partial update `wUpd`. -/
def wUpdated : Comic := applyUpdate seed2 wUpd

/-- The record `wInp` creates on the store `[seed1, seed2]`. -/
def wNew3 : Comic := mkNewComic [seed1, seed2] wInp

/-- The record `wInp` creates on the seed store. -/
def wNew4 : Comic := mkNewComic seedComics wInp

/-- A record with id 1, for stores with an identifier gap. -/
def cGap1 : Comic := ⟨1, "t1", "a1", 2000, "p1", "g1", "d1"⟩

/-- A record with id 3: `[cGap1, cGap3]` is the seed store after deleting
id 2, so its identifiers have a gap below the maximum. -/
def cGap3 : Comic := ⟨3, "t3", "a3", 2001, "p3", "g3", "d3"⟩

/-- A six-record store exercising pagination beyond the seed size. -/
def cex6 : List Comic :=
  [⟨1, "t1", "a", 2005, "p", "g", "d"⟩, ⟨2, "t2", "a", 2006, "p", "g", "d"⟩,
   ⟨3, "t3", "a", 2007, "p", "g", "d"⟩, ⟨4, "t4", "a", 2008, "p", "g", "d"⟩,
   ⟨5, "t5", "a", 2009, "p", "g", "d"⟩, ⟨6, "t6", "a", 2010, "p", "g", "d"⟩]

end Catalog

namespace Catalog

theorem foldr_max_cons (x a : Int) (l : List Int) :
    (x :: l).foldr max a = max x (l.foldr max a) := rfl

theorem foldr_max_swap (l : List Int) (a x : Int) :
    l.foldr max (max a x) = max x (l.foldr max a) := by
  induction l with
  | nil => exact max_comm a x
  | cons y t ih =>
      simp only [List.foldr_cons, ih]
      rw [max_left_comm]

theorem foldl_max_eq_foldr (l : List Int) (a : Int) :
    l.foldl max a = l.foldr max a := by
  induction l generalizing a with
  | nil => rfl
  | cons x t ih =>
      simp only [List.foldl_cons, List.foldr_cons, ih]
      rw [← foldr_max_swap]

theorem getNextId_eq (comics : List Comic) :
    getNextId comics = maxIdSpec comics + 1 := by
  unfold getNextId maxIdSpec idsOf
  congr 1
  have hf : (fun (mx : Int) (c : Comic) => if c.id > mx then c.id else mx)
      = fun mx c => max mx c.id := by
    funext mx c
    by_cases h : c.id > mx
    · simp [h, max_eq_right (le_of_lt h)]
    · simp [h, max_eq_left (le_of_not_lt h)]
  rw [hf, ← List.foldl_map (f := Comic.id) (g := max), foldl_max_eq_foldr]

theorem le_foldr_max (l : List Int) (x : Int) (hx : x ∈ l) :
    x ≤ l.foldr max 0 := by
  induction l with
  | nil => cases hx
  | cons y t ih =>
      rcases List.mem_cons.mp hx with h | h
      · subst h; exact le_max_left _ _
      · exact le_trans (ih h) (le_max_right _ _)

theorem foldr_max_nonneg (l : List Int) : 0 ≤ l.foldr max 0 := by
  induction l with
  | nil => exact le_refl 0
  | cons y t ih => exact le_trans ih (le_max_right _ _)

theorem maxIdSpec_nonneg (comics : List Comic) : 0 ≤ maxIdSpec comics :=
  foldr_max_nonneg _

theorem id_le_maxIdSpec {comics : List Comic} {c : Comic} (hc : c ∈ comics) :
    c.id ≤ maxIdSpec comics :=
  le_foldr_max _ _ (List.mem_map_of_mem Comic.id hc)

theorem id_lt_getNextId {comics : List Comic} {c : Comic} (hc : c ∈ comics) :
    c.id < getNextId comics := by
  rw [getNextId_eq]
  exact lt_of_le_of_lt (id_le_maxIdSpec hc) (lt_add_one _)

theorem foldr_max_append_singleton (l : List Int) (x : Int) :
    (l ++ [x]).foldr max 0 = max (l.foldr max 0) (max x 0) := by
  induction l with
  | nil => simp
  | cons y t ih =>
      simp only [List.cons_append, List.foldr_cons, ih]
      rw [max_assoc]

theorem maxIdSpec_append_new {comics : List Comic} {c : Comic}
    (h : c.id = getNextId comics) : maxIdSpec (comics ++ [c]) = c.id := by
  have h0 : 0 ≤ maxIdSpec comics := maxIdSpec_nonneg comics
  have hgt : maxIdSpec comics < c.id := by
    rw [h, getNextId_eq]; exact lt_add_one _
  unfold maxIdSpec idsOf at h0 hgt ⊢
  rw [List.map_append, List.map_singleton, foldr_max_append_singleton]
  rw [max_eq_left (le_trans h0 (le_of_lt hgt))]
  exact max_eq_right (le_of_lt hgt)

theorem getNextId_append_new {comics : List Comic} {c : Comic}
    (h : c.id = getNextId comics) :
    getNextId (comics ++ [c]) = getNextId comics + 1 := by
  rw [getNextId_eq, maxIdSpec_append_new h, h]

end Catalog

namespace Catalog

set_option maxRecDepth 8000

theorem deleteComic_eq_none_iff (s : List Comic) (i : Int) :
    deleteComic s i = none ↔ ∀ c ∈ s, c.id ≠ i := by
  induction s with
  | nil => simp [deleteComic]
  | cons c rest ih =>
      by_cases h : c.id = i
      · simp [deleteComic, h]
      · simp [deleteComic, h, Option.map_eq_none', ih]

theorem deleteComic_some (s : List Comic) (i : Int) (s' : List Comic) (d : Comic)
    (h : deleteComic s i = some (s', d)) :
    d.id = i ∧ ∃ pre post, s = pre ++ d :: post ∧ (∀ c ∈ pre, c.id ≠ i) ∧
      s' = pre ++ post := by
  induction s generalizing s' d with
  | nil => simp [deleteComic] at h
  | cons c rest ih =>
      simp only [deleteComic] at h
      by_cases hc : c.id = i
      · rw [if_pos hc] at h
        cases h
        exact ⟨hc, [], rest, rfl, by simp, rfl⟩
      · rw [if_neg hc] at h
        cases hdel : deleteComic rest i with
        | none => rw [hdel] at h; simp at h
        | some p =>
            obtain ⟨s1, d1⟩ := p
            rw [hdel] at h
            simp only [Option.map_some'] at h
            cases h
            obtain ⟨hid, pre, post, hs, hpre, hs1⟩ := ih _ _ hdel
            refine ⟨hid, c :: pre, post, by rw [hs]; rfl, ?_, by rw [hs1]; rfl⟩
            intro x hx
            rcases List.mem_cons.mp hx with hx | hx
            · exact hx ▸ hc
            · exact hpre x hx

end Catalog

namespace Catalog

theorem deleteComic_sublist {s : List Comic} {i : Int} {s' : List Comic} {d : Comic}
    (h : deleteComic s i = some (s', d)) : s'.Sublist s := by
  obtain ⟨-, pre, post, hs, -, hs'⟩ := deleteComic_some s i s' d h
  rw [hs, hs']
  exact List.Sublist.append_left (List.sublist_cons_self d post) pre

theorem deleteComic_not_mem {s : List Comic} {i : Int} {s' : List Comic} {d : Comic}
    (hnd : (idsOf s).Nodup) (h : deleteComic s i = some (s', d)) :
    ∀ c ∈ s', c.id ≠ i := by
  obtain ⟨hid, pre, post, hs, -, hs'⟩ := deleteComic_some s i s' d h
  subst hs hs'
  have : idsOf (pre ++ d :: post) = idsOf pre ++ d.id :: idsOf post := by
    simp [idsOf]
  rw [this, List.nodup_middle] at hnd
  have hni : d.id ∉ idsOf pre ++ idsOf post := (List.nodup_cons.mp hnd).1
  intro c hc hci
  apply hni
  have : c.id ∈ idsOf pre ++ idsOf post := by
    simp only [idsOf, ← List.map_append]
    exact List.mem_map_of_mem Comic.id hc
  rw [hid.trans hci.symm]
  exact this

theorem deleteComic_again {s : List Comic} {i : Int} {s' : List Comic} {d : Comic}
    (hnd : (idsOf s).Nodup) (h : deleteComic s i = some (s', d)) :
    deleteComic s' i = none :=
  (deleteComic_eq_none_iff s' i).mpr (deleteComic_not_mem hnd h)

theorem updateComic_eq_none_iff (s : List Comic) (i : Int) (inp : ComicInput) :
    updateComic s i inp = none ↔ ∀ c ∈ s, c.id ≠ i := by
  induction s with
  | nil => simp [updateComic]
  | cons c rest ih =>
      by_cases h : c.id = i
      · simp [updateComic, h]
      · simp [updateComic, h, Option.map_eq_none', ih]

theorem updateComic_some (s : List Comic) (i : Int) (inp : ComicInput)
    (s' : List Comic) (u : Comic) (h : updateComic s i inp = some (s', u)) :
    ∃ pre old post, s = pre ++ old :: post ∧ (∀ c ∈ pre, c.id ≠ i) ∧
      old.id = i ∧ u = applyUpdate old inp ∧ s' = pre ++ u :: post := by
  induction s generalizing s' u with
  | nil => simp [updateComic] at h
  | cons c rest ih =>
      simp only [updateComic] at h
      by_cases hc : c.id = i
      · rw [if_pos hc] at h
        cases h
        exact ⟨[], c, rest, rfl, by simp, hc, rfl, rfl⟩
      · rw [if_neg hc] at h
        cases hupd : updateComic rest i inp with
        | none => rw [hupd] at h; simp at h
        | some p =>
            obtain ⟨s1, u1⟩ := p
            rw [hupd] at h
            simp only [Option.map_some'] at h
            cases h
            obtain ⟨pre, old, post, hs, hpre, hoid, hu, hs1⟩ := ih _ _ hupd
            refine ⟨c :: pre, old, post, by rw [hs]; rfl, ?_, hoid, hu, by rw [hs1]; rfl⟩
            intro x hx
            rcases List.mem_cons.mp hx with hx | hx
            · exact hx ▸ hc
            · exact hpre x hx

theorem applyUpdate_id (old : Comic) (inp : ComicInput) :
    (applyUpdate old inp).id = old.id := rfl

theorem updateComic_ids {s : List Comic} {i : Int} {inp : ComicInput}
    {s' : List Comic} {u : Comic} (h : updateComic s i inp = some (s', u)) :
    idsOf s' = idsOf s := by
  obtain ⟨pre, old, post, hs, -, -, hu, hs'⟩ := updateComic_some s i inp s' u h
  subst hs hs' hu
  simp [idsOf, applyUpdate_id]

theorem postComic_eq_none_iff (s : List Comic) (inp : ComicInput) :
    postComic s inp = none ↔ invalidInput inp = true := by
  by_cases h : invalidInput inp
  · simp [postComic, h]
  · simp [postComic, h]

theorem postComic_some (s : List Comic) (inp : ComicInput)
    (s' : List Comic) (c : Comic) (h : postComic s inp = some (s', c)) :
    invalidInput inp = false ∧ c = mkNewComic s inp ∧ s' = s ++ [c] := by
  by_cases hv : invalidInput inp
  · simp [postComic, hv] at h
  · simp only [postComic, hv, Bool.false_eq_true, if_false] at h
    cases h
    exact ⟨by simp [hv], rfl, rfl⟩

theorem nodup_ids_append_new {s : List Comic} {c : Comic}
    (hnd : (idsOf s).Nodup) (hc : c.id = getNextId s) :
    (idsOf (s ++ [c])).Nodup := by
  have : idsOf (s ++ [c]) = idsOf s ++ [c.id] := by simp [idsOf]
  rw [this, List.nodup_append]
  refine ⟨hnd, List.nodup_singleton _, ?_⟩
  intro x hx hx'
  rcases List.mem_map.mp hx with ⟨c', hc', rfl⟩
  rcases List.mem_singleton.mp hx' with h
  have := id_lt_getNextId hc'
  rw [← hc, h] at this
  exact lt_irrefl _ this

end Catalog

namespace Catalog

theorem mkNewComic_id (s : List Comic) (inp : ComicInput) :
    (mkNewComic s inp).id = getNextId s := rfl

theorem bulkCreateGo_state (inputs : List ComicInput) :
    ∀ s : List Comic, (bulkCreateGo s inputs).1 = s ++ (bulkCreateGo s inputs).2.1 := by
  induction inputs with
  | nil => intro s; simp [bulkCreateGo]
  | cons inp rest ih =>
      intro s
      cases hv : invalidInput inp with
      | true => simpa [bulkCreateGo, hv] using ih s
      | false =>
          simp only [bulkCreateGo, hv, Bool.false_eq_true, if_false]
          rw [ih (s ++ [mkNewComic s inp])]
          simp

theorem bulkCreateGo_failed (inputs : List ComicInput) :
    ∀ s : List Comic,
      ((bulkCreateGo s inputs).2.2).map Prod.fst
          = inputs.filter (fun inp => invalidInput inp)
        ∧ ∀ f ∈ (bulkCreateGo s inputs).2.2, f.2 = requiredMsg := by
  induction inputs with
  | nil => intro s; simp [bulkCreateGo]
  | cons inp rest ih =>
      intro s
      cases hv : invalidInput inp with
      | true =>
          simp only [bulkCreateGo, hv, if_true, List.map_cons, List.filter_cons,
            Bool.true_eq_false, if_true]
          refine ⟨?_, ?_⟩
          · rw [(ih s).1]
          · intro f hf
            rcases List.mem_cons.mp hf with hf | hf
            · rw [hf]
            · exact (ih s).2 f hf
      | false =>
          simp only [bulkCreateGo, hv, Bool.false_eq_true, if_false, List.filter_cons]
          exact ih (s ++ [mkNewComic s inp])

theorem bulkCreateGo_added_len (inputs : List ComicInput) :
    ∀ s : List Comic,
      (bulkCreateGo s inputs).2.1.length
        = (inputs.filter (fun inp => !invalidInput inp)).length := by
  induction inputs with
  | nil => intro s; simp [bulkCreateGo]
  | cons inp rest ih =>
      intro s
      cases hv : invalidInput inp with
      | true =>
          simpa [bulkCreateGo, hv, List.filter_cons] using ih s
      | false =>
          simp only [bulkCreateGo, hv, Bool.false_eq_true, if_false, List.length_cons,
            List.filter_cons, Bool.not_false, if_true]
          rw [ih (s ++ [mkNewComic s inp])]

theorem bulkCreateGo_ids (inputs : List ComicInput) :
    ∀ s : List Comic,
      ((bulkCreateGo s inputs).2.1).map Comic.id
        = (List.range (bulkCreateGo s inputs).2.1.length).map
            (fun k : Nat => getNextId s + (k : Int)) := by
  induction inputs with
  | nil => intro s; simp [bulkCreateGo]
  | cons inp rest ih =>
      intro s
      cases hv : invalidInput inp with
      | true => simpa [bulkCreateGo, hv] using ih s
      | false =>
          have hc : (mkNewComic s inp).id = getNextId s := rfl
          simp only [bulkCreateGo, hv, Bool.false_eq_true, if_false, List.map_cons,
            List.length_cons, List.range_succ_eq_map, List.map_map]
          rw [ih (s ++ [mkNewComic s inp])]
          congr 1
          · rw [hc]; simp
          · congr 1
            funext k
            show getNextId (s ++ [mkNewComic s inp]) + (k : Int)
              = getNextId s + ((k + 1 : Nat) : Int)
            rw [getNextId_append_new hc]
            push_cast
            ring

theorem bulkCreateGo_nodup (inputs : List ComicInput) :
    ∀ s : List Comic, (idsOf s).Nodup → (idsOf (bulkCreateGo s inputs).1).Nodup := by
  induction inputs with
  | nil => intro s h; simpa [bulkCreateGo] using h
  | cons inp rest ih =>
      intro s h
      cases hv : invalidInput inp with
      | true => simpa [bulkCreateGo, hv] using ih s h
      | false =>
          simp only [bulkCreateGo, hv, Bool.false_eq_true, if_false]
          exact ih (s ++ [mkNewComic s inp]) (nodup_ids_append_new h rfl)

theorem sublist_ids_nodup {s' s : List Comic} (hsub : s'.Sublist s)
    (h : (idsOf s).Nodup) : (idsOf s').Nodup :=
  List.Nodup.sublist (List.Sublist.map Comic.id hsub) h

theorem bulkDeleteGo_len (ids : List Int) :
    ∀ s : List Comic,
      (bulkDeleteGo s ids).2.1.length + (bulkDeleteGo s ids).2.2.length = ids.length := by
  induction ids with
  | nil => intro s; simp [bulkDeleteGo]
  | cons i rest ih =>
      intro s
      cases hdel : deleteComic s i with
      | none =>
          simp only [bulkDeleteGo, hdel, List.length_cons]
          have := ih s
          omega
      | some p =>
          obtain ⟨s1, c⟩ := p
          simp only [bulkDeleteGo, hdel, List.length_cons]
          have := ih s1
          omega

theorem bulkDeleteGo_nodup (ids : List Int) :
    ∀ s : List Comic, (idsOf s).Nodup → (idsOf (bulkDeleteGo s ids).1).Nodup := by
  induction ids with
  | nil => intro s h; simpa [bulkDeleteGo] using h
  | cons i rest ih =>
      intro s h
      cases hdel : deleteComic s i with
      | none => simpa [bulkDeleteGo, hdel] using ih s h
      | some p =>
          obtain ⟨s1, c⟩ := p
          simp only [bulkDeleteGo, hdel]
          exact ih s1 (sublist_ids_nodup (deleteComic_sublist hdel) h)

end Catalog

namespace Catalog

theorem searchComics_eq_none_iff (s : List Comic) (kw : String) :
    searchComics s kw = none ↔ ∀ c ∈ s, matchesKeyword kw c = false := by
  by_cases h : (s.filter (matchesKeyword kw)).isEmpty
  · simp only [searchComics, h, if_true]
    rw [List.isEmpty_iff] at h
    constructor
    · intro _ c hc
      by_contra hm
      have : c ∈ s.filter (matchesKeyword kw) :=
        List.mem_filter.mpr ⟨hc, by revert hm; cases matchesKeyword kw c <;> simp⟩
      rw [h] at this
      cases this
    · intro _; trivial
  · simp only [searchComics, h, Bool.false_eq_true, if_false]
    constructor
    · intro habs; cases habs
    · intro hall
      exfalso
      apply h
      rw [List.isEmpty_iff, List.filter_eq_nil_iff]
      intro c hc
      rw [hall c hc]
      simp

theorem searchComics_some (s : List Comic) (kw : String) (r : List Comic) (n : Nat)
    (h : searchComics s kw = some (r, n)) :
    r = s.filter (matchesKeyword kw) ∧ n = r.length ∧ r ≠ [] := by
  by_cases he : (s.filter (matchesKeyword kw)).isEmpty
  · simp [searchComics, he] at h
  · simp only [searchComics, he, Bool.false_eq_true, if_false, Option.some.injEq,
      Prod.mk.injEq] at h
    obtain ⟨h1, h2⟩ := h
    subst h1
    refine ⟨rfl, h2.symm, ?_⟩
    intro habs
    exact he (by rw [habs]; rfl)

theorem applyOptFilter_eq (o : Option String) (test : String → Comic → Bool)
    (l : List Comic) :
    applyOptFilter o test l = l.filter (fun c => passOpt o test c) := by
  cases o with
  | none => simp [applyOptFilter, passOpt]
  | some a =>
      by_cases ha : a = ""
      · simp [applyOptFilter, passOpt, ha]
      · simp [applyOptFilter, passOpt, ha]

theorem filterByQuery_eq (comics : List Comic) (q : ListQuery) :
    filterByQuery comics q = comics.filter (matchesAll q) := by
  unfold filterByQuery
  rw [applyOptFilter_eq, applyOptFilter_eq, applyOptFilter_eq, applyOptFilter_eq,
    List.filter_filter, List.filter_filter, List.filter_filter]
  apply List.filter_congr
  intro c _
  simp only [matchesAll]
  cases h1 : passOpt q.author authorTest c <;>
    cases h2 : passOpt q.genre genreTest c <;>
      cases h3 : passOpt q.publisher publisherTest c <;>
        cases h4 : passOpt q.year yearTest c <;> rfl

theorem take_clamp (l : List Comic) (k : Nat) : l.take (min k l.length) = l.take k := by
  rcases le_total k l.length with h | h
  · rw [min_eq_left h]
  · rw [min_eq_right h, List.take_length, List.take_of_length_le h]

theorem drop_clamp (l' : List Comic) (k n : Nat) (hlen : l'.length ≤ n) :
    l'.drop (min k n) = l'.drop k := by
  rcases le_total k n with h | h
  · rw [min_eq_left h]
  · rw [min_eq_right h, List.drop_eq_nil_of_le hlen,
      List.drop_eq_nil_of_le (le_trans hlen h)]

theorem jsSlice_eq_window (l : List Comic) (a b : Int) (ha : 0 ≤ a) (hb : 0 ≤ b) :
    jsSlice l a b = windowSpec l a b := by
  unfold jsSlice windowSpec
  simp only [not_lt.mpr ha, not_lt.mpr hb, if_false]
  have h1 : (min b (l.length : Int)).toNat = min b.toNat l.length := by omega
  have h2 : (min a (l.length : Int)).toNat = min a.toNat l.length := by omega
  rw [h1, h2, take_clamp]
  refine drop_clamp _ _ _ ?_
  rw [List.length_take]
  exact min_le_right _ _

theorem ceilDiv_bounds (a b : Int) (hb : 1 ≤ b) :
    a ≤ ceilDiv a b * b ∧ (ceilDiv a b - 1) * b < a := by
  unfold ceilDiv
  rw [Int.fdiv_eq_ediv _ (by omega)]
  constructor
  · nlinarith [Int.ediv_mul_le (-a) (show b ≠ 0 by omega)]
  · nlinarith [Int.lt_ediv_add_one_mul_self (-a) (show 0 < b by omega)]

end Catalog

namespace Catalog

theorem uniqueList_loop_nodup (f : Comic → String) (l : List Comic) :
    ∀ acc : List String, acc.Nodup →
      (l.foldl (fun acc c => if f c ∈ acc then acc else acc ++ [f c]) acc).Nodup := by
  induction l with
  | nil => intro acc h; exact h
  | cons c t ih =>
      intro acc h
      rw [List.foldl_cons]
      by_cases hm : f c ∈ acc
      · rw [if_pos hm]; exact ih acc h
      · rw [if_neg hm]
        refine ih _ ?_
        rw [List.nodup_append]
        exact ⟨h, List.nodup_singleton _, by
          intro x hx hx'
          rw [List.mem_singleton.mp hx'] at hx
          exact hm hx⟩

theorem uniqueList_loop_mem (f : Comic → String) (l : List Comic) :
    ∀ (acc : List String) (x : String),
      x ∈ l.foldl (fun acc c => if f c ∈ acc then acc else acc ++ [f c]) acc ↔
        x ∈ acc ∨ x ∈ l.map f := by
  induction l with
  | nil => intro acc x; simp
  | cons c t ih =>
      intro acc x
      rw [List.foldl_cons]
      by_cases hm : f c ∈ acc
      · rw [if_pos hm, ih]
        simp only [List.map_cons, List.mem_cons]
        constructor
        · rintro (h | h)
          · exact Or.inl h
          · exact Or.inr (Or.inr h)
        · rintro (h | h | h)
          · exact Or.inl h
          · exact Or.inl (h ▸ hm)
          · exact Or.inr h
      · rw [if_neg hm, ih]
        simp only [List.mem_append, List.mem_singleton, List.map_cons, List.mem_cons]
        tauto

theorem uniqueList_length (f : Comic → String) (s : List Comic) :
    (uniqueList f s).length = ((s.map f).dedup).length := by
  have h1 : (uniqueList f s).Nodup := uniqueList_loop_nodup f s [] (List.nodup_nil)
  have h2 : ∀ x, x ∈ uniqueList f s ↔ x ∈ (s.map f).dedup := by
    intro x
    rw [List.mem_dedup]
    simpa using uniqueList_loop_mem f s [] x
  rw [← List.toFinset_card_of_nodup h1, ← List.toFinset_card_of_nodup (List.nodup_dedup _)]
  congr 1
  ext x
  simp only [List.mem_toFinset]
  exact h2 x

theorem lookupCount_bump_self (m : List (String × Nat)) (k : String) :
    lookupCount (bump m k) k = some ((lookupCount m k).getD 0 + 1) := by
  induction m with
  | nil => simp [bump, lookupCount]
  | cons kv rest ih =>
      obtain ⟨k', n⟩ := kv
      by_cases h : k' = k
      · simp only [bump, if_pos h]
        unfold lookupCount
        rw [List.find?_cons_of_pos _ (by simp [h]), List.find?_cons_of_pos _ (by simp [h])]
        simp
      · simp only [bump, if_neg h]
        unfold lookupCount
        rw [List.find?_cons_of_neg _ (by simp [h]), List.find?_cons_of_neg _ (by simp [h])]
        exact ih

theorem lookupCount_bump_other (m : List (String × Nat)) (k k' : String) (h : k' ≠ k) :
    lookupCount (bump m k') k = lookupCount m k := by
  induction m with
  | nil =>
      simp only [bump]
      unfold lookupCount
      rw [List.find?_cons_of_neg _ (by simp [h])]
  | cons kv rest ih =>
      obtain ⟨k0, n⟩ := kv
      by_cases h0 : k0 = k'
      · simp only [bump, if_pos h0]
        unfold lookupCount
        rw [List.find?_cons_of_neg _ (by rw [decide_eq_true_eq, h0]; exact h),
          List.find?_cons_of_neg _ (by rw [decide_eq_true_eq, h0]; exact h)]
      · simp only [bump, if_neg h0]
        by_cases h1 : k0 = k
        · unfold lookupCount
          rw [List.find?_cons_of_pos _ (by simp [h1]), List.find?_cons_of_pos _ (by simp [h1])]
        · unfold lookupCount
          rw [List.find?_cons_of_neg _ (by simp [h1]), List.find?_cons_of_neg _ (by simp [h1])]
          exact ih

theorem countsMap_loop (f : Comic → String) (l : List Comic) :
    ∀ (m : List (String × Nat)) (k : String),
      lookupCount (l.foldl (fun m c => bump m (f c)) m) k
        = if k ∈ l.map f
            then some ((lookupCount m k).getD 0 + (l.map f).count k)
            else lookupCount m k := by
  induction l with
  | nil => intro m k; simp
  | cons c t ih =>
      intro m k
      rw [List.foldl_cons, ih]
      by_cases hk : k = f c
      · subst hk
        have hself := lookupCount_bump_self m (f c)
        by_cases ht : f c ∈ t.map f
        · rw [if_pos ht, if_pos (by simp), hself]
          simp only [Option.getD_some, List.map_cons, List.count_cons_self]
          congr 1
          omega
        · rw [if_neg ht, if_pos (by simp), hself, List.map_cons, List.count_cons_self,
            List.count_eq_zero_of_not_mem ht]
      · have hother := lookupCount_bump_other m k (f c) (fun h => hk h.symm)
        by_cases ht : k ∈ t.map f
        · rw [if_pos ht, hother,
            if_pos (by rw [List.map_cons]; exact List.mem_cons_of_mem _ ht),
            List.map_cons, List.count_cons_of_ne hk]
        · rw [if_neg ht, hother, if_neg (by rw [List.map_cons]; simp [hk, ht])]

theorem countsMap_lookup (f : Comic → String) (s : List Comic) (k : String) :
    lookupCount (countsMap f s) k
      = if k ∈ s.map f then some ((s.map f).count k) else none := by
  unfold countsMap
  rw [countsMap_loop]
  simp [lookupCount]

end Catalog

namespace Catalog

theorem find?_congr_mem {l : List Comic} {p q : Comic → Bool}
    (h : ∀ a ∈ l, p a = q a) : l.find? p = l.find? q := by
  induction l with
  | nil => rfl
  | cons a t ih =>
      cases hpa : p a with
      | true =>
          have hqa : q a = true := by rw [← h a (List.mem_cons_self a t)]; exact hpa
          rw [List.find?_cons_of_pos _ hpa, List.find?_cons_of_pos _ hqa]
      | false =>
          have hqa : q a = false := by rw [← h a (List.mem_cons_self a t)]; exact hpa
          rw [List.find?_cons_of_neg _ (by simp [hpa]), List.find?_cons_of_neg _ (by simp [hqa])]
          exact ih (fun a ha => h a (List.mem_cons_of_mem _ ha))

theorem foldl_oldest_eq_find (t : List Comic) :
    ∀ b : Comic,
      some (t.foldl (fun oldest c => if c.year < oldest.year then c else oldest) b)
        = (b :: t).find? (fun c => decide (∀ x ∈ b :: t, c.year ≤ x.year)) := by
  induction t with
  | nil =>
      intro b
      rw [List.find?_cons_of_pos _ (by simp)]
      rfl
  | cons c t' ih =>
      intro b
      rw [List.foldl_cons]
      by_cases hcb : c.year < b.year
      · rw [if_pos hcb]
        rw [List.find?_cons_of_neg _ (by
          simp only [decide_eq_true_eq]
          push_neg
          exact ⟨c, by simp, by omega⟩)]
        rw [ih c]
        apply find?_congr_mem
        intro a _
        rw [decide_eq_decide]
        constructor
        · intro hmin x hx
          rcases List.mem_cons.mp hx with hx | hx
          · have := hmin c (List.mem_cons_self c t')
            subst hx
            omega
          · exact hmin x hx
        · intro hmin x hx
          exact hmin x (List.mem_cons_of_mem _ hx)
      · have hbc : b.year ≤ c.year := not_lt.mp hcb
        rw [if_neg hcb, ih b]
        by_cases hbmin : ∀ x ∈ b :: c :: t', b.year ≤ x.year
        · rw [List.find?_cons_of_pos _ (by
              simp only [decide_eq_true_eq]
              intro x hx
              rcases List.mem_cons.mp hx with hx | hx
              · exact hx ▸ le_refl _
              · exact hbmin x (by simp [hx])),
            List.find?_cons_of_pos _ (by simp only [decide_eq_true_eq]; exact hbmin)]
        · push_neg at hbmin
          obtain ⟨y, hy, hylt⟩ := hbmin
          have hyt' : y ∈ t' := by
            rcases List.mem_cons.mp hy with h1 | h1
            · exfalso; rw [h1] at hylt; omega
            · rcases List.mem_cons.mp h1 with h2 | h2
              · exfalso; rw [h2] at hylt; omega
              · exact h2
          rw [List.find?_cons_of_neg _ (by
            simp only [decide_eq_true_eq]
            push_neg
            exact ⟨y, by simp [hyt'], by omega⟩)]
          rw [List.find?_cons_of_neg _ (by
            simp only [decide_eq_true_eq]
            push_neg
            exact ⟨y, hy, by omega⟩)]
          rw [List.find?_cons_of_neg _ (by
            simp only [decide_eq_true_eq]
            push_neg
            exact ⟨y, by simp [hyt'], by omega⟩)]
          apply find?_congr_mem
          intro a _
          rw [decide_eq_decide]
          constructor
          · intro hmin x hx
            rcases List.mem_cons.mp hx with hx | hx
            · exact hx ▸ hmin b (by simp)
            · rcases List.mem_cons.mp hx with hx2 | hx2
              · exact hx2 ▸ le_trans (hmin b (by simp)) hbc
              · exact hmin x (by simp [hx2])
          · intro hmin x hx
            rcases List.mem_cons.mp hx with hx | hx
            · exact hx ▸ hmin b (by simp)
            · exact hmin x (by simp [hx])

theorem reduceOldest_eq_find (s : List Comic) (hs : s ≠ []) :
    reduceOldest s = s.find? (fun c => decide (∀ x ∈ s, c.year ≤ x.year)) := by
  match s with
  | [] => exact absurd rfl hs
  | c0 :: t =>
      show some (List.foldl _ c0 (c0 :: t)) = _
      rw [List.foldl_cons, if_neg (lt_irrefl c0.year)]
      exact foldl_oldest_eq_find t c0

theorem foldl_newest_eq_find (t : List Comic) :
    ∀ b : Comic,
      some (t.foldl (fun newest c => if c.year > newest.year then c else newest) b)
        = (b :: t).find? (fun c => decide (∀ x ∈ b :: t, x.year ≤ c.year)) := by
  induction t with
  | nil =>
      intro b
      rw [List.find?_cons_of_pos _ (by simp)]
      rfl
  | cons c t' ih =>
      intro b
      rw [List.foldl_cons]
      by_cases hcb : c.year > b.year
      · rw [if_pos hcb]
        rw [List.find?_cons_of_neg _ (by
          simp only [decide_eq_true_eq]
          push_neg
          exact ⟨c, by simp, by omega⟩)]
        rw [ih c]
        apply find?_congr_mem
        intro a _
        rw [decide_eq_decide]
        constructor
        · intro hmin x hx
          rcases List.mem_cons.mp hx with hx | hx
          · have := hmin c (List.mem_cons_self c t')
            subst hx
            omega
          · exact hmin x hx
        · intro hmin x hx
          exact hmin x (List.mem_cons_of_mem _ hx)
      · have hbc : c.year ≤ b.year := not_lt.mp hcb
        rw [if_neg hcb, ih b]
        by_cases hbmin : ∀ x ∈ b :: c :: t', x.year ≤ b.year
        · rw [List.find?_cons_of_pos _ (by
              simp only [decide_eq_true_eq]
              intro x hx
              rcases List.mem_cons.mp hx with hx | hx
              · exact hx ▸ le_refl _
              · exact hbmin x (by simp [hx])),
            List.find?_cons_of_pos _ (by simp only [decide_eq_true_eq]; exact hbmin)]
        · push_neg at hbmin
          obtain ⟨y, hy, hylt⟩ := hbmin
          have hyt' : y ∈ t' := by
            rcases List.mem_cons.mp hy with h1 | h1
            · exfalso; rw [h1] at hylt; omega
            · rcases List.mem_cons.mp h1 with h2 | h2
              · exfalso; rw [h2] at hylt; omega
              · exact h2
          rw [List.find?_cons_of_neg _ (by
            simp only [decide_eq_true_eq]
            push_neg
            exact ⟨y, by simp [hyt'], by omega⟩)]
          rw [List.find?_cons_of_neg _ (by
            simp only [decide_eq_true_eq]
            push_neg
            exact ⟨y, hy, by omega⟩)]
          rw [List.find?_cons_of_neg _ (by
            simp only [decide_eq_true_eq]
            push_neg
            exact ⟨y, by simp [hyt'], by omega⟩)]
          apply find?_congr_mem
          intro a _
          rw [decide_eq_decide]
          constructor
          · intro hmin x hx
            rcases List.mem_cons.mp hx with hx | hx
            · exact hx ▸ hmin b (by simp)
            · rcases List.mem_cons.mp hx with hx2 | hx2
              · exact hx2 ▸ le_trans hbc (hmin b (by simp))
              · exact hmin x (by simp [hx2])
          · intro hmin x hx
            rcases List.mem_cons.mp hx with hx | hx
            · exact hx ▸ hmin b (by simp)
            · exact hmin x (by simp [hx])

theorem reduceNewest_eq_find (s : List Comic) (hs : s ≠ []) :
    reduceNewest s = s.find? (fun c => decide (∀ x ∈ s, x.year ≤ c.year)) := by
  match s with
  | [] => exact absurd rfl hs
  | c0 :: t =>
      show some (List.foldl _ c0 (c0 :: t)) = _
      rw [List.foldl_cons, if_neg (lt_irrefl c0.year)]
      exact foldl_newest_eq_find t c0

end Catalog

namespace Catalog

/-- C1 (amended): for every store state the next assigned identifier equals
(maximum existing identifier, or 0 if the store is empty) + 1; after
deleting the record with the highest identifier `m`, the next created
record is assigned (maximum remaining identifier) + 1, which is `m` again
exactly when the remaining maximum is `m - 1` (as for the seed store). -/
theorem C1_next_id_policy :
    ∀ (s s' s'' : List Comic) (d c : Comic) (m : Int) (inp : ComicInput),
      getNextId s = maxIdSpec s + 1 ∧
      (deleteComic s m = some (s', d) →
        postComic s' inp = some (s'', c) →
        c.id = maxIdSpec s' + 1 ∧ (maxIdSpec s' = m - 1 → c.id = m)) := by
  intro s s' s'' d c m inp
  refine ⟨getNextId_eq s, ?_⟩
  intro _ hpost
  obtain ⟨-, hc, -⟩ := postComic_some s' inp s'' c hpost
  subst hc
  refine ⟨by rw [mkNewComic_id, getNextId_eq], ?_⟩
  intro hm
  rw [mkNewComic_id, getNextId_eq, hm]
  ring

/-- C1 witness: deleting the highest seed identifier 3 and then creating a
valid record assigns identifier 3 again. -/
theorem C1_witness : wNew3.id = 3 :=
  (((C1_next_id_policy seedComics [seed1, seed2] [seed1, seed2, wNew3] seed3 wNew3
      3 wInp).2) rfl rfl).2 (by decide)

/-- C1 counterexample: on the store with identifiers 1 and 3 (the seed
store after deleting id 2), deleting the highest identifier 3 and creating
a record assigns identifier 2, not 3. -/
theorem C1_counterexample :
    maxIdSpec [cGap1, cGap3] = 3 ∧
    ((deleteComic [cGap1, cGap3] 3).bind
        (fun p => postComic p.1 wInp)).map (fun q => q.2.id) = some 2 ∧
    (2 : Int) ≠ 3 := by
  refine ⟨by decide, rfl, by decide⟩

/-- C2: starting from a store with pairwise distinct identifiers, create,
update, delete, bulk create and bulk delete each yield a store with
pairwise distinct identifiers. -/
theorem C2_unique_ids_invariant :
    ∀ (s : List Comic) (inp : ComicInput) (i : Int) (inputs : List ComicInput)
      (ids : List Int),
      (idsOf s).Nodup →
      (∀ p, postComic s inp = some p → (idsOf p.1).Nodup) ∧
      (∀ p, updateComic s i inp = some p → (idsOf p.1).Nodup) ∧
      (∀ p, deleteComic s i = some p → (idsOf p.1).Nodup) ∧
      (∀ r, bulkCreate s inputs = some r → (idsOf r.1).Nodup) ∧
      (∀ r, bulkDelete s ids = some r → (idsOf r.1).Nodup) := by
  intro s inp i inputs ids hnd
  refine ⟨?_, ?_, ?_, ?_, ?_⟩
  · rintro ⟨s', c⟩ hp
    obtain ⟨-, hc, hs'⟩ := postComic_some s inp s' c hp
    subst hs'
    exact nodup_ids_append_new hnd (by rw [hc, mkNewComic_id])
  · rintro ⟨s', u⟩ hp
    have := updateComic_ids hp
    simpa [this] using hnd
  · rintro ⟨s', d⟩ hp
    exact sublist_ids_nodup (deleteComic_sublist hp) hnd
  · rintro ⟨s', rest⟩ hr
    have heq : bulkCreateGo s inputs = (s', rest) := by
      by_cases he : inputs.isEmpty
      · simp [bulkCreate, he] at hr
      · simpa [bulkCreate, he] using hr
    have hn := bulkCreateGo_nodup inputs s hnd
    rw [heq] at hn
    exact hn
  · rintro ⟨s', rest⟩ hr
    have heq : bulkDeleteGo s ids = (s', rest) := by
      by_cases he : ids.isEmpty
      · simp [bulkDelete, he] at hr
      · simpa [bulkDelete, he] using hr
    have hn := bulkDeleteGo_nodup ids s hnd
    rw [heq] at hn
    exact hn

/-- C2 witness: deleting id 2 from the seed store keeps the identifiers
pairwise distinct. -/
theorem C2_witness : (idsOf [seed1, seed3]).Nodup :=
  ((C2_unique_ids_invariant seedComics wInp 2 [] [] (by decide)).2.2.1)
    ([seed1, seed3], seed2) rfl

/-- C3: create fails exactly when title, author or year is absent or falsy
(the empty string, or year 0); on success it appends a record carrying the
next identifier, the provided required fields, and the defaults "Unknown",
"Unspecified" and "" for omitted optional fields, returning that record. -/
theorem C3_create :
    ∀ (s : List Comic) (inp : ComicInput),
      (postComic s inp = none ↔
        (inp.title = none ∨ inp.title = some "" ∨ inp.author = none ∨
         inp.author = some "" ∨ inp.year = none ∨ inp.year = some 0)) ∧
      (∀ s' c, postComic s inp = some (s', c) →
        s' = s ++ [c] ∧
        c.id = getNextId s ∧
        (∀ t, inp.title = some t → c.title = t) ∧
        (∀ a, inp.author = some a → c.author = a) ∧
        (∀ y, inp.year = some y → c.year = y) ∧
        (inp.publisher = none → c.publisher = "Unknown") ∧
        (inp.genre = none → c.genre = "Unspecified") ∧
        (inp.description = none → c.description = "")) := by
  intro s inp
  constructor
  · rw [postComic_eq_none_iff]
    obtain ⟨t, a, y, p, g, d⟩ := inp
    simp only [invalidInput, falsyStr, falsyYear, Bool.or_eq_true]
    cases t <;> cases a <;> cases y <;> simp <;> tauto
  · intro s' c h
    obtain ⟨hv, hc, hs'⟩ := postComic_some s inp s' c h
    subst hc
    refine ⟨hs', mkNewComic_id s inp, ?_, ?_, ?_, ?_, ?_, ?_⟩
    · intro t ht; simp [mkNewComic, ht]
    · intro a ha; simp [mkNewComic, ha]
    · intro y hy; simp [mkNewComic, hy]
    · intro hp; simp [mkNewComic, jsOr, hp]
    · intro hg; simp [mkNewComic, jsOr, hg]
    · intro hd; simp [mkNewComic, jsOr, hd]

/-- C3 witness: creating with `wInp` on the seed store assigns the next
identifier and the default publisher. -/
theorem C3_witness : wNew4.id = getNextId seedComics ∧ wNew4.publisher = "Unknown" := by
  have h := (C3_create seedComics wInp).2 (seedComics ++ [wNew4]) wNew4 rfl
  exact ⟨h.2.1, h.2.2.2.2.2.1 rfl⟩

end Catalog

namespace Catalog

/-- C4 (amended): list filters compose as a logical AND preserving store
order, totalItems is the pre-pagination match count, currentPage is the
parsed page, totalPages is the ceiling of totalItems/limit (characterized
below for positive limits), missing or non-numeric page/limit fall back to
the defaults 1 and 10, and whenever the parsed page and limit are both at
least 1 the returned data is exactly the window
[(page-1)*limit, page*limit) of the filtered sequence; a negative parsed
page or limit is instead fed to JavaScript slice as an end-relative
index. -/
theorem C4_list_pagination :
    ∀ (s : List Comic) (q : ListQuery) (page lim : Int),
      page = jsOrInt (q.page.bind parseIntJS) 1 →
      lim = jsOrInt (q.limit.bind parseIntJS) 10 →
      (listComics s q).totalItems = (s.filter (matchesAll q)).length ∧
      (s.filter (matchesAll q)).Sublist s ∧
      (listComics s q).currentPage = page ∧
      (listComics s q).totalPages = ceilDiv ((s.filter (matchesAll q)).length : Int) lim ∧
      (q.page = none ∨ q.page.bind parseIntJS = none → page = 1) ∧
      (q.limit = none ∨ q.limit.bind parseIntJS = none → lim = 10) ∧
      (1 ≤ lim →
        ((s.filter (matchesAll q)).length : Int) ≤ (listComics s q).totalPages * lim ∧
        ((listComics s q).totalPages - 1) * lim < ((s.filter (matchesAll q)).length : Int)) ∧
      (1 ≤ page → 1 ≤ lim →
        (listComics s q).data
          = windowSpec (s.filter (matchesAll q)) ((page - 1) * lim) (page * lim)) := by
  intro s q page lim hpage hlim
  subst hpage hlim
  refine ⟨?_, List.filter_sublist s, rfl, ?_, ?_, ?_, ?_, ?_⟩
  · show (filterByQuery s q).length = _
    rw [filterByQuery_eq]
  · show ceilDiv ((filterByQuery s q).length : Int) _ = _
    rw [filterByQuery_eq]
  · rintro (h | h) <;> simp [h, jsOrInt]
  · rintro (h | h) <;> simp [h, jsOrInt]
  · intro hl
    have hb := ceilDiv_bounds ((s.filter (matchesAll q)).length : Int) _ hl
    refine ⟨?_, ?_⟩
    · show _ ≤ ceilDiv ((filterByQuery s q).length : Int) _ * _
      rw [filterByQuery_eq]
      exact hb.1
    · show (ceilDiv ((filterByQuery s q).length : Int) _ - 1) * _ < _
      rw [filterByQuery_eq]
      exact hb.2
  · intro hp hl
    show jsSlice (filterByQuery s q) _ _ = _
    rw [filterByQuery_eq]
    exact jsSlice_eq_window _ _ _
      (mul_nonneg (by omega) (by omega)) (mul_nonneg (by omega) (by omega))

/-- C4 witness: the seed store listed with page "2" and limit "2" returns
exactly the window [2, 4) of the (unfiltered) sequence. -/
theorem C4_witness :
    (listComics seedComics { page := some "2", limit := some "2" }).data
      = windowSpec
          (seedComics.filter (matchesAll { page := some "2", limit := some "2" }))
          ((2 - 1) * 2) (2 * 2) :=
  ((C4_list_pagination seedComics { page := some "2", limit := some "2" } 2 2
      (by decide) (by decide)).2.2.2.2.2.2.2) (by decide) (by decide)

/-- C4 counterexample: with limit "-5" (numeric, so no fallback applies)
and the default page 1 on a six-record store, the returned data is not the
window [(page-1)*limit, page*limit) = [0, -5) of the filtered sequence,
which is empty: JavaScript slice treats the negative end as an
end-relative index. -/
theorem C4_counterexample :
    parseIntJS "-5" = some (-5) ∧
    (listComics cex6 { limit := some "-5" }).currentPage = 1 ∧
    (listComics cex6 { limit := some "-5" }).data
      ≠ windowSpec (cex6.filter (matchesAll { limit := some "-5" }))
          ((1 - 1) * (-5)) (1 * (-5)) := by
  refine ⟨by decide, by decide, by decide⟩

/-- C5: update fails exactly when no record carries the identifier; on
success every provided field overwrites, every omitted field keeps its
prior value, the identifier is unchanged, the updated record replaces the
matched one in place, and an empty payload leaves the record and the store
unchanged. -/
theorem C5_update :
    ∀ (s : List Comic) (i : Int) (inp : ComicInput),
      (updateComic s i inp = none ↔ ∀ c ∈ s, c.id ≠ i) ∧
      (∀ s' u, updateComic s i inp = some (s', u) →
        idsOf s' = idsOf s ∧
        u.id = i ∧
        (∀ t, inp.title = some t → u.title = t) ∧
        (∀ a, inp.author = some a → u.author = a) ∧
        (∀ y, inp.year = some y → u.year = y) ∧
        (∀ pb, inp.publisher = some pb → u.publisher = pb) ∧
        (∀ g, inp.genre = some g → u.genre = g) ∧
        (∀ d, inp.description = some d → u.description = d) ∧
        ∃ pre old post,
          s = pre ++ old :: post ∧ (∀ c ∈ pre, c.id ≠ i) ∧ old.id = i ∧
          s' = pre ++ u :: post ∧
          (inp.title = none → u.title = old.title) ∧
          (inp.author = none → u.author = old.author) ∧
          (inp.year = none → u.year = old.year) ∧
          (inp.publisher = none → u.publisher = old.publisher) ∧
          (inp.genre = none → u.genre = old.genre) ∧
          (inp.description = none → u.description = old.description) ∧
          (inp = emptyInput → u = old ∧ s' = s)) := by
  intro s i inp
  refine ⟨updateComic_eq_none_iff s i inp, ?_⟩
  intro s' u h
  obtain ⟨pre, old, post, hs, hpre, hoid, hu, hs'⟩ := updateComic_some s i inp s' u h
  refine ⟨updateComic_ids h, by rw [hu, applyUpdate_id, hoid], ?_, ?_, ?_, ?_, ?_, ?_,
    pre, old, post, hs, hpre, hoid, hs', ?_, ?_, ?_, ?_, ?_, ?_, ?_⟩
  · intro t ht; rw [hu]; simp [applyUpdate, ht]
  · intro a ha; rw [hu]; simp [applyUpdate, ha]
  · intro y hy; rw [hu]; simp [applyUpdate, hy]
  · intro pb hpb; rw [hu]; simp [applyUpdate, hpb]
  · intro g hg; rw [hu]; simp [applyUpdate, hg]
  · intro d hd; rw [hu]; simp [applyUpdate, hd]
  · intro ht; rw [hu]; simp [applyUpdate, ht]
  · intro ha; rw [hu]; simp [applyUpdate, ha]
  · intro hy; rw [hu]; simp [applyUpdate, hy]
  · intro hpb; rw [hu]; simp [applyUpdate, hpb]
  · intro hg; rw [hu]; simp [applyUpdate, hg]
  · intro hd; rw [hu]; simp [applyUpdate, hd]
  · intro he
    have hu' : u = old := by rw [hu, he]; rfl
    refine ⟨hu', ?_⟩
    rw [hs, hs', hu']

/-- C5 witness: updating id 2 of the seed store with only a title yields a
record with the new title, the same identifier, and the same identifier
sequence. -/
theorem C5_witness :
    wUpdated.title = "W" ∧ wUpdated.id = 2 ∧
    idsOf [seed1, wUpdated, seed3] = idsOf seedComics := by
  have h := (C5_update seedComics 2 wUpd).2 [seed1, wUpdated, seed3] wUpdated rfl
  exact ⟨h.2.2.1 "W" rfl, h.2.1, h.1⟩

end Catalog

namespace Catalog

/-- C6: bulk create fails (before inserting anything) exactly when the
payload sequence is empty; otherwise payloads are processed independently
in input order, invalid payloads are collected with the required-fields
reason without aborting the batch, the valid ones are appended in order,
and the N added records receive the N consecutive identifiers starting at
the incoming store's next identifier. -/
theorem C6_bulk_create :
    ∀ (s : List Comic) (inputs : List ComicInput),
      (bulkCreate s inputs = none ↔ inputs = []) ∧
      (∀ s' added failed, bulkCreate s inputs = some (s', added, failed) →
        s' = s ++ added ∧
        failed.map Prod.fst = inputs.filter (fun inp => invalidInput inp) ∧
        (∀ f ∈ failed, f.2 = requiredMsg) ∧
        added.length = (inputs.filter (fun inp => !invalidInput inp)).length ∧
        added.map Comic.id
          = (List.range added.length).map (fun k : Nat => getNextId s + (k : Int))) := by
  intro s inputs
  constructor
  · by_cases he : inputs.isEmpty
    · simp [bulkCreate, he, List.isEmpty_iff.mp he]
    · simp only [bulkCreate, he, Bool.false_eq_true, if_false]
      constructor
      · intro habs; cases habs
      · intro habs; exact absurd (show inputs.isEmpty = true by rw [habs]; rfl) he
  · intro s' added failed hr
    have heq : bulkCreateGo s inputs = (s', added, failed) := by
      by_cases he : inputs.isEmpty
      · simp [bulkCreate, he] at hr
      · simpa [bulkCreate, he] using hr
    have h1 := bulkCreateGo_state inputs s
    have h2 := bulkCreateGo_failed inputs s
    have h3 := bulkCreateGo_added_len inputs s
    have h4 := bulkCreateGo_ids inputs s
    rw [heq] at h1 h2 h3 h4
    exact ⟨h1, h2.1, h2.2, h3, h4⟩

/-- C6 witness: the spec's bulk example on the seed store: one valid and
one invalid payload give one added record (with the next identifier) and
one failure naming the offending payload. -/
theorem C6_witness :
    [wNew4].map Comic.id
        = (List.range 1).map (fun k : Nat => getNextId seedComics + (k : Int)) ∧
    [(badInp, requiredMsg)].map Prod.fst
        = [wInp, badInp].filter (fun inp => invalidInput inp) := by
  have h := (C6_bulk_create seedComics [wInp, badInp]).2 (seedComics ++ [wNew4])
    [wNew4] [(badInp, requiredMsg)] rfl
  exact ⟨h.2.2.2.2, h.2.1⟩

/-- C7: bulk delete fails exactly when the identifier sequence is empty;
identifiers are processed independently in input order, each identifier is
either deleted or reported not-found (the two lists partition the input),
a matching record is removed at the moment its identifier is processed, so
a duplicated identifier is deleted at its first occurrence and reported
not-found on the repeat, and an identifier matching nothing goes to the
not-found list. -/
theorem C7_bulk_delete :
    ∀ (s : List Comic) (ids : List Int),
      (bulkDelete s ids = none ↔ ids = []) ∧
      (∀ s' del nf, bulkDelete s ids = some (s', del, nf) →
        del.length + nf.length = ids.length) ∧
      (∀ i rest s1 d, (idsOf s).Nodup → deleteComic s i = some (s1, d) →
        bulkDelete s (i :: i :: rest)
          = some ((bulkDeleteGo s1 rest).1, d :: (bulkDeleteGo s1 rest).2.1,
              i :: (bulkDeleteGo s1 rest).2.2)) ∧
      (∀ i rest, deleteComic s i = none →
        bulkDelete s (i :: rest)
          = some ((bulkDeleteGo s rest).1, (bulkDeleteGo s rest).2.1,
              i :: (bulkDeleteGo s rest).2.2)) := by
  intro s ids
  refine ⟨?_, ?_, ?_, ?_⟩
  · by_cases he : ids.isEmpty
    · simp [bulkDelete, he, List.isEmpty_iff.mp he]
    · simp only [bulkDelete, he, Bool.false_eq_true, if_false]
      constructor
      · intro habs; cases habs
      · intro habs; exact absurd (show ids.isEmpty = true by rw [habs]; rfl) he
  · intro s' del nf hr
    have heq : bulkDeleteGo s ids = (s', del, nf) := by
      by_cases he : ids.isEmpty
      · simp [bulkDelete, he] at hr
      · simpa [bulkDelete, he] using hr
    have h := bulkDeleteGo_len ids s
    rw [heq] at h
    exact h
  · intro i rest s1 d hnd hdel
    have hnone := deleteComic_again hnd hdel
    simp [bulkDelete, bulkDeleteGo, hdel, hnone]
  · intro i rest hnone
    simp [bulkDelete, bulkDeleteGo, hnone]

/-- C7 witness: bulk-deleting [2, 2] from the seed store deletes the
record with id 2 once and reports the repeated 2 as not found. -/
theorem C7_witness :
    bulkDelete seedComics [2, 2] = some ([seed1, seed3], [seed2], [2]) :=
  ((C7_bulk_delete seedComics [2, 2]).2.2.1) 2 [] [seed1, seed3] seed2 (by decide) rfl

/-- C8: keyword search returns exactly the records whose lowercased title,
author, publisher, genre or description contains the lowercased keyword,
together with their count; it returns a not-found signal exactly when no
record matches; and the store is unchanged afterwards. -/
theorem C8_search :
    ∀ (s : List Comic) (kw : String),
      (searchComics s kw = none ↔ ∀ c ∈ s, matchesKeyword kw c = false) ∧
      (∀ r n, searchComics s kw = some (r, n) →
        r = s.filter (matchesKeyword kw) ∧ n = r.length ∧ r ≠ []) ∧
      (searchHandler s kw).1 = s :=
  fun s kw =>
    ⟨searchComics_eq_none_iff s kw, fun r n h => searchComics_some s kw r n h, rfl⟩

/-- C8 witness: searching "maus" in the seed store finds exactly the Maus
record with count 1. -/
theorem C8_witness :
    [seed3] = seedComics.filter (matchesKeyword "maus") ∧
    1 = [seed3].length ∧ [seed3] ≠ ([] : List Comic) :=
  ((C8_search seedComics "maus").2.1) [seed3] 1 rfl

/-- C9: on a non-empty store, statistics report the record count, the
numbers of distinct publishers, authors and genres (by exact text value),
a per-value occurrence count for each of the three fields, and the records
of minimum and maximum year with ties resolved in favor of the earliest
record in store order; on the seed store there are 2 distinct publishers
and the oldest record is the Batman seed (year 1986, first in order). -/
theorem C9_stats :
    ∀ s : List Comic, s ≠ [] →
      (statsComics s).totalComics = s.length ∧
      (statsComics s).uniquePublishers = ((s.map Comic.publisher).dedup).length ∧
      (statsComics s).uniqueAuthors = ((s.map Comic.author).dedup).length ∧
      (statsComics s).uniqueGenres = ((s.map Comic.genre).dedup).length ∧
      (∀ k, lookupCount (statsComics s).publisherCounts k
        = if k ∈ s.map Comic.publisher
            then some ((s.map Comic.publisher).count k) else none) ∧
      (∀ k, lookupCount (statsComics s).authorCounts k
        = if k ∈ s.map Comic.author
            then some ((s.map Comic.author).count k) else none) ∧
      (∀ k, lookupCount (statsComics s).genreCounts k
        = if k ∈ s.map Comic.genre
            then some ((s.map Comic.genre).count k) else none) ∧
      (statsComics s).oldestComic
        = s.find? (fun c => decide (∀ x ∈ s, c.year ≤ x.year)) ∧
      (statsComics s).newestComic
        = s.find? (fun c => decide (∀ x ∈ s, x.year ≤ c.year)) ∧
      ((statsComics seedComics).uniquePublishers = 2 ∧
        (statsComics seedComics).oldestComic = some seed1) := by
  intro s hs
  exact ⟨rfl, uniqueList_length _ _, uniqueList_length _ _, uniqueList_length _ _,
    fun k => countsMap_lookup _ _ _, fun k => countsMap_lookup _ _ _,
    fun k => countsMap_lookup _ _ _,
    reduceOldest_eq_find s hs, reduceNewest_eq_find s hs, by decide, by decide⟩

/-- C9 witness: statistics on the seed store report 3 records and 2
distinct publishers. -/
theorem C9_witness :
    (statsComics seedComics).totalComics = seedComics.length ∧
    (statsComics seedComics).uniquePublishers = 2 :=
  ⟨(C9_stats seedComics (by decide)).1,
    ((C9_stats seedComics (by decide)).2.2.2.2.2.2.2.2.2).1⟩

/-- C10: list, get-by-id, statistics and keyword search hand the store
back exactly as received, for every store and every input. -/
theorem C10_reads_pure :
    ∀ (s : List Comic) (q : ListQuery) (i : Int) (kw : String),
      (getComicsHandler s q).1 = s ∧
      (getComicByIdHandler s i).1 = s ∧
      (statsHandler s).1 = s ∧
      (searchHandler s kw).1 = s :=
  fun s q i kw => ⟨rfl, rfl, rfl, rfl⟩

end Catalog
